import Mathlib

/-!
Verification development for the Mental-Health-Journal-Assistance repository.

The repository has two front ends, `app.py` (CLI) and `GUI_streamlit.py` (UI),
sharing one pipeline: build a combined prompt from a system prompt and the
journal text of the user, call a remote generation endpoint at temperature 0.9,
strip Markdown code fences from the reply with
re.sub(r"```json|```", "", raw_text).strip(), attempt a strict JSON decode
with `json.loads`, and present the result; the UI additionally keeps an
in-memory history list with save / analyze / clear actions.

This file embeds those operations shallowly:
* `isPyWs` / `pyStrip` model Python `str.strip()` (Unicode whitespace set);
* `removeFences` models the regex substitution: scan left to right, at each
  position try the alternative "```json" first, then "```", remove the match
  and continue after it, otherwise keep the character;
* `clean_text` models the full normalizer (substitution then strip);
* `J`, `step`, `finalize`, `jsonLoads` model strict `json.loads` as an
  executable character-driven machine.  The model is syntactic: numbers keep
  their lexeme, strings keep their raw (escape-unexpanded) characters and
  object members keep their order and duplicates, since no claim inspects
  the numeric value of a decoded number or merges duplicate keys.  Success
  and failure of decoding follow the strict decoder of CPython: the whitespace
  set space/tab/newline/return, the literals null, true, false, NaN,
  Infinity, -Infinity, the number regex
  (-?(0|[1-9][0-9]*))([.][0-9]+)?([eE][-+]?[0-9]+)?, strict strings
  (control characters below 0x20 rejected, escapes validated, a \u escape
  needs 4 hex digits), no trailing commas, keys must be strings, and
  trailing garbage after the top-level value is an error;
* the front-end glue (`gui_combined_prompt`, `cli_combined_prompt`,
  `get_ai_response`, `cli_iteration`, `load_system_prompt`, `saveResult`,
  `analyzeResult`, `uiStep`) is translated line by line from the two files,
  with the remote call abstracted as an `Except String String` outcome.
-/

/-- JSON whitespace accepted by the CPython decoder between tokens: space,
tab, newline, carriage return. -/
def isJsonWs (c : Char) : Bool :=
  c = ' ' || c = '\t' || c = '\n' || c = '\r'

/-- Characters stripped by Python `str.strip()`: the Unicode whitespace set
of `str.isspace`. -/
def isPyWs (c : Char) : Bool :=
  [' ', '\t', '\n', '\x0b', '\x0c', '\r', '\x1c', '\x1d', '\x1e', '\x1f', '\x85', '\xa0',
   '\u1680', '\u2000', '\u2001', '\u2002', '\u2003', '\u2004', '\u2005', '\u2006', '\u2007',
   '\u2008', '\u2009', '\u200a', '\u2028', '\u2029', '\u202f', '\u205f', '\u3000'].contains c

/-- Left trim of Python `str.strip()` on the character list. -/
def lstripL (l : List Char) : List Char := l.dropWhile isPyWs

/-- Right trim of Python `str.strip()` on the character list. -/
def rstripL (l : List Char) : List Char := ((l.reverse).dropWhile isPyWs).reverse

/-- Both-sided trim on the character list. -/
def pyStripL (l : List Char) : List Char := rstripL (lstripL l)

/-- Model of Python `str.strip()`. -/
def pyStrip (s : String) : String := String.mk (pyStripL s.data)

/-- The seven characters of the first regex alternative ("```json"). -/
def pat7 : List Char := "```json".data

/-- The three characters of the second regex alternative ("```"). -/
def pat3 : List Char := "```".data

/-- Fuelled scanner for the regex substitution: at each position try
"```json" first, then "```"; on a match drop it and continue after the
match, otherwise keep the character and advance by one.  The fuel only
bounds the recursion; `removeFences` supplies enough of it. -/
def removeFencesF : Nat → List Char → List Char
  | 0, l => l
  | _ + 1, [] => []
  | f + 1, c :: cs =>
    if pat7.isPrefixOf (c :: cs) then removeFencesF f (cs.drop 6)
    else if pat3.isPrefixOf (c :: cs) then removeFencesF f (cs.drop 2)
    else c :: removeFencesF f cs

/-- Model of the regex substitution removing every occurrence of "```json"
and "```" (alternatives tried in that order, non-overlapping, left to
right), as `re.sub` does. -/
def removeFences (l : List Char) : List Char := removeFencesF l.length l

/-- Whether "```" occurs as a contiguous substring. -/
def containsFence : List Char → Bool
  | [] => false
  | c :: cs => pat3.isPrefixOf (c :: cs) || containsFence cs

/-- Model of the response cleaning from `app.py` line 56 and
`GUI_streamlit.py` line 125: the regex substitution followed by
`.strip()`. -/
def clean_text (raw_text : String) : String :=
  pyStrip (String.mk (removeFences raw_text.data))

/-- Syntactic JSON values as produced by the decoder model: numbers keep
their matched lexeme, strings keep the raw characters between the quotes
(escape sequences unexpanded), objects keep member order and duplicates. -/
inductive J where
  | null
  | jtrue
  | jfalse
  | nan
  | inf
  | ninf
  | num (lex : List Char)
  | str (raw : List Char)
  | arr (elems : List J)
  | obj (members : List (List Char × J))

/-- Which multi-character literal is being matched. -/
inductive LitKind where
  | nullL
  | trueL
  | falseL
  | nanL
  | infL
  | ninfL
deriving DecidableEq

/-- Sub-states of the number automaton, mirroring the number regex of the decoder: after the sign; after a leading zero; inside the integer digits;
just after the decimal point; inside the fraction digits; just after the
exponent marker; after the exponent sign; inside the exponent digits. -/
inductive NumSt where
  | sgn
  | z
  | ints
  | dot
  | frac
  | e
  | esgn
  | exp
deriving DecidableEq

/-- Whether the string being scanned is an object key (carrying the members
parsed so far) or a value. -/
inductive StrCtx where
  | val
  | key (members : List (List Char × J))

/-- A container under construction: an array with its finished elements, or
an object with its finished members and the key whose value is being
parsed. -/
inductive Frame where
  | arrF (done : List J)
  | objF (done : List (List Char × J)) (key : List Char)

/-- Decoder mode between two characters. -/
inductive Mode where
  | start
  | arrFirst
  | objFirst
  | expectKey (members : List (List Char × J))
  | afterKey (members : List (List Char × J)) (key : List Char)
  | afterVal (v : J)
  | inStr (ctx : StrCtx) (acc : List Char)
  | strEsc (ctx : StrCtx) (acc : List Char)
  | strHex (ctx : StrCtx) (acc : List Char) (hs : List Char)
  | lit (k : LitKind) (pos : Nat)
  | num (lex : List Char) (ns : NumSt)

/-- Full decoder state: a hard error, or a stack of open containers plus the
current mode. -/
inductive State where
  | error
  | st (stack : List Frame) (mode : Mode)

/-- The characters of each literal. -/
def litTarget : LitKind → List Char
  | .nullL => "null".data
  | .trueL => "true".data
  | .falseL => "false".data
  | .nanL => "NaN".data
  | .infL => "Infinity".data
  | .ninfL => "-Infinity".data

/-- The value each literal decodes to. -/
def litVal : LitKind → J
  | .nullL => J.null
  | .trueL => J.jtrue
  | .falseL => J.jfalse
  | .nanL => J.nan
  | .infL => J.inf
  | .ninfL => J.ninf

/-- Hexadecimal digit test, as accepted after a string escape \u. -/
def isHexDig (c : Char) : Bool :=
  c.isDigit || ('a' ≤ c && c ≤ 'f') || ('A' ≤ c && c ≤ 'F')

/-- Dispatch on the first character of a value, in decoder order:
string, object, array, the literals, a number (a sign or a digit), NaN,
Infinity.  Any other character is the error "Expecting value". -/
def startValueChar (stack : List Frame) (c : Char) : State :=
  if c = '"' then .st stack (.inStr .val [])
  else if c = '\x7b' then .st stack .objFirst
  else if c = '[' then .st (.arrF [] :: stack) .arrFirst
  else if c = 'n' then .st stack (.lit .nullL 1)
  else if c = 't' then .st stack (.lit .trueL 1)
  else if c = 'f' then .st stack (.lit .falseL 1)
  else if c = '-' then .st stack (.num ['-'] .sgn)
  else if c = '0' then .st stack (.num ['0'] .z)
  else if c.isDigit then .st stack (.num [c] .ints)
  else if c = 'N' then .st stack (.lit .nanL 1)
  else if c = 'I' then .st stack (.lit .infL 1)
  else .error

/-- A value `v` has just been completed and character `c` follows: JSON
whitespace waits, a comma or a closing bracket continues the enclosing
container, anything else (including anything at top level) is an error
("Extra data" / "Expecting delimiter"). -/
def stepAfterVal (stack : List Frame) (v : J) (c : Char) : State :=
  if isJsonWs c then .st stack (.afterVal v)
  else
    match stack with
    | [] => .error
    | .arrF done :: rest =>
      if c = ',' then .st (.arrF (done ++ [v]) :: rest) .start
      else if c = ']' then .st rest (.afterVal (J.arr (done ++ [v])))
      else .error
    | .objF done key :: rest =>
      if c = ',' then .st rest (.expectKey (done ++ [(key, v)]))
      else if c = '\x7d' then .st rest (.afterVal (J.obj (done ++ [(key, v)])))
      else .error

/-- A closing double quote ends the string: a value string completes, a key
string waits for the colon. -/
def endStr (stack : List Frame) (ctx : StrCtx) (acc : List Char) : State :=
  match ctx with
  | .val => .st stack (.afterVal (J.str acc))
  | .key members => .st stack (.afterKey members acc)

/-- Match the next character of a literal. -/
def stepLit (stack : List Frame) (k : LitKind) (pos : Nat) (c : Char) : State :=
  match (litTarget k).get? pos with
  | some p =>
    if c = p then
      if pos + 1 = (litTarget k).length then .st stack (.afterVal (litVal k))
      else .st stack (.lit k (pos + 1))
    else .error
  | none => .error

/-- One decoder step on one character. -/
def step (s : State) (c : Char) : State :=
  match s with
  | .error => .error
  | .st stack mode =>
    match mode with
    | .start =>
      if isJsonWs c then .st stack .start else startValueChar stack c
    | .arrFirst =>
      if isJsonWs c then .st stack .arrFirst
      else if c = ']' then
        match stack with
        | .arrF done :: rest => .st rest (.afterVal (J.arr done))
        | _ => .error
      else startValueChar stack c
    | .objFirst =>
      if isJsonWs c then .st stack .objFirst
      else if c = '\x7d' then .st stack (.afterVal (J.obj []))
      else if c = '"' then .st stack (.inStr (.key []) [])
      else .error
    | .expectKey members =>
      if isJsonWs c then .st stack (.expectKey members)
      else if c = '"' then .st stack (.inStr (.key members) [])
      else .error
    | .afterKey members key =>
      if isJsonWs c then .st stack (.afterKey members key)
      else if c = ':' then .st (.objF members key :: stack) .start
      else .error
    | .afterVal v => stepAfterVal stack v c
    | .inStr ctx acc =>
      if c = '"' then endStr stack ctx acc
      else if c = '\\' then .st stack (.strEsc ctx (acc ++ ['\\']))
      else if c.toNat < 32 then .error
      else .st stack (.inStr ctx (acc ++ [c]))
    | .strEsc ctx acc =>
      if c = '"' || c = '\\' || c = '/' || c = 'b' || c = 'f' || c = 'n' || c = 'r' || c = 't' then
        .st stack (.inStr ctx (acc ++ [c]))
      else if c = 'u' then .st stack (.strHex ctx (acc ++ ['u']) [])
      else .error
    | .strHex ctx acc hs =>
      if isHexDig c then
        if hs.length = 3 then .st stack (.inStr ctx (acc ++ hs ++ [c]))
        else .st stack (.strHex ctx acc (hs ++ [c]))
      else .error
    | .lit k pos => stepLit stack k pos c
    | .num lex ns =>
      match ns with
      | .sgn =>
        if c = '0' then .st stack (.num (lex ++ ['0']) .z)
        else if c.isDigit then .st stack (.num (lex ++ [c]) .ints)
        else if c = 'I' then .st stack (.lit .ninfL 2)
        else .error
      | .z =>
        if c = '.' then .st stack (.num (lex ++ ['.']) .dot)
        else if c = 'e' || c = 'E' then .st stack (.num (lex ++ [c]) .e)
        else stepAfterVal stack (J.num lex) c
      | .ints =>
        if c.isDigit then .st stack (.num (lex ++ [c]) .ints)
        else if c = '.' then .st stack (.num (lex ++ ['.']) .dot)
        else if c = 'e' || c = 'E' then .st stack (.num (lex ++ [c]) .e)
        else stepAfterVal stack (J.num lex) c
      | .dot =>
        if c.isDigit then .st stack (.num (lex ++ [c]) .frac)
        else .error
      | .frac =>
        if c.isDigit then .st stack (.num (lex ++ [c]) .frac)
        else if c = 'e' || c = 'E' then .st stack (.num (lex ++ [c]) .e)
        else stepAfterVal stack (J.num lex) c
      | .e =>
        if c.isDigit then .st stack (.num (lex ++ [c]) .exp)
        else if c = '+' || c = '-' then .st stack (.num (lex ++ [c]) .esgn)
        else .error
      | .esgn =>
        if c.isDigit then .st stack (.num (lex ++ [c]) .exp)
        else .error
      | .exp =>
        if c.isDigit then .st stack (.num (lex ++ [c]) .exp)
        else stepAfterVal stack (J.num lex) c

/-- Number sub-states in which the lexeme so far is a complete match of the
number regex. -/
def numComplete : NumSt → Bool
  | .z => true
  | .ints => true
  | .frac => true
  | .exp => true
  | _ => false

/-- End of input: only a completed top-level value (or a top-level number
whose lexeme is complete) decodes. -/
def finalize : State → Option J
  | .error => none
  | .st stack mode =>
    match mode with
    | .afterVal v => match stack with | [] => some v | _ :: _ => none
    | .num lex ns =>
      match stack with
      | [] => if numComplete ns then some (J.num lex) else none
      | _ :: _ => none
    | _ => none

/-- The decoder starts with no open containers, expecting a value. -/
def initState : State := .st [] .start

/-- Model of strict `json.loads`: run the machine over the characters and
finalize. -/
def jsonLoads (s : String) : Option J :=
  finalize (s.data.foldl step initState)

/-- Combined prompt built by `GUI_streamlit.py` lines 105-116 (f-string with
the system prompt, the quoted journal entry, the shared instruction block,
and an extra line asking for JSON output). -/
def gui_combined_prompt (system_prompt user_input : String) : String :=
  system_prompt ++
  "\n\nUser Journal Entry:\n\"\"\"" ++ user_input ++
  "\"\"\"\n\nRespond with:\n- Emotion detected\n- Short summary\n- Advice or mental health support message\n- Tone: empathetic and warm\n\nFormat your response as valid JSON with keys: emotion_detected, summary, advice"

/-- Combined prompt built by `app.py` lines 36-46 (f-string with the system
prompt, the quoted journal entry, and the shared instruction block, ending
with a newline after "warm"). -/
def cli_combined_prompt (Sys_Prompt user_input : String) : String :=
  Sys_Prompt ++
  "\n\nUser Journal Entry:\n\"\"\"" ++ user_input ++
  "\"\"\"\n\nRespond with:\n- Emotion detected\n- Short summary\n- Advice or mental health support message\n- Tone: empathetic and warm\n"

/-- Sampling temperature passed by the UI (`generation_config` with
temperature 0.9, `GUI_streamlit.py` line 120), modelled as a rational. -/
def guiTemperature : ℚ := 9 / 10

/-- Sampling temperature passed by the CLI (`generation_config` with
temperature 0.9, `app.py` line 51), modelled as a rational. -/
def cliTemperature : ℚ := 9 / 10

/-- Core of `get_ai_response` (`GUI_streamlit.py` lines 122-135) after the
remote call, with the call outcome abstracted as an `Except`: a raised
error is caught and stringified as "Error: ..."; otherwise the reply text is
cleaned and strictly decoded, returning the decoded value with no error on
success, or no value and the original raw text on decode failure. -/
def normalize_response (result : Except String String) : Option J × Option String :=
  match result with
  | .error e => (none, some ("Error: " ++ e))
  | .ok raw_text =>
    match jsonLoads (clean_text raw_text) with
    | some response_json => (some response_json, none)
    | none => (none, some raw_text)

/-- Model of `get_ai_response(user_input, system_prompt)`: build the UI
combined prompt, invoke the generation endpoint at the UI temperature, and
normalize the outcome. -/
def get_ai_response (user_input system_prompt : String)
    (generate_content : String → ℚ → Except String String) : Option J × Option String :=
  normalize_response (generate_content (gui_combined_prompt system_prompt user_input) guiTemperature)

/-- One displayed CLI result (`app.py` lines 59-65): pretty-printed insight
on decode success, or the raw output under the unexpected-response warning. -/
inductive CliDisplay where
  | insight (response_json : J)
  | unexpectedRaw (raw_text : String)

/-- Model of one iteration of the `app.py` loop body after reading input
(lines 36-65): the generation call is NOT wrapped in any try/except, so an
error outcome propagates as the `Except.error`; on success the reply is
cleaned, decoded, and displayed. -/
def cli_iteration (user_input Sys_Prompt : String)
    (generate_content : String → ℚ → Except String String) : Except String CliDisplay :=
  match generate_content (cli_combined_prompt Sys_Prompt user_input) cliTemperature with
  | .error e => .error e
  | .ok raw_text =>
    .ok (match jsonLoads (clean_text raw_text) with
         | some response_json => .insight response_json
         | none => .unexpectedRaw raw_text)

/-- Outcome of looking up the configured prompt file: readable with some
content, absent, or present but failing to read. -/
inductive PromptFile where
  | readable (content : String)
  | missing
  | unreadable
deriving DecidableEq

/-- The built-in default system prompt of `GUI_streamlit.py` lines 88-98. -/
def guiDefaultPrompt : String :=
  "You are a compassionate AI mental health journal assistant. Your role is to:\n1. Analyze the emotional content of journal entries\n2. Provide supportive, empathetic responses\n3. Offer gentle guidance and mental health insights\n4. Maintain a warm, understanding tone\n\nAlways respond in JSON format with:\n- emotion_detected: main emotion identified\n- summary: brief summary of the entry\n- advice: supportive message or advice\n- tone: empathetic and encouraging"

/-- Model of `load_system_prompt` (`GUI_streamlit.py` lines 76-98): return
the file content when the file exists and reads; fall through to the
built-in default when it is missing or the read raises. -/
def load_system_prompt : PromptFile → String
  | .readable content => content
  | .missing => guiDefaultPrompt
  | .unreadable => guiDefaultPrompt

/-- The built-in default system prompt of `app.py` line 20. -/
def cliDefaultPrompt : String := "You\x27re a helpful assistant."

/-- Model of the `Sys_Prompt` assignment in `app.py` lines 15-20: the file
content when it reads, the default on any exception. -/
def Sys_Prompt_of : PromptFile → String
  | .readable content => content
  | .missing => cliDefaultPrompt
  | .unreadable => cliDefaultPrompt

/-- Whether the significand of a matched number lexeme is zero (all digits
before any exponent marker are 0), so that the decoded float is 0.0 or
-0.0 and hence falsy in Python.  Extreme exponents that only underflow to
0.0 in IEEE double arithmetic are not modelled. -/
def jsonNumIsZero (lex : List Char) : Bool :=
  ((lex.takeWhile fun c => !(c = 'e' || c = 'E')).filter fun c => c.isDigit).all fun c => c = '0'

/-- Python truthiness of a decoded JSON value, as tested by the
`if response_json:` branch in `GUI_streamlit.py` line 201: None, False, 0,
0.0, empty string, empty list and empty dict are falsy. -/
def jsonTruthy : J → Bool
  | .null => false
  | .jtrue => true
  | .jfalse => false
  | .nan => true
  | .inf => true
  | .ninf => true
  | .num lex => !(jsonNumIsZero lex)
  | .str raw => !raw.isEmpty
  | .arr elems => !elems.isEmpty
  | .obj members => !members.isEmpty

/-- One history record (`GUI_streamlit.py` lines 184-188 and 221-225):
timestamp string, the raw entry text, and the analysis or None. -/
structure JournalEntry where
  timestamp : String
  entry : String
  analysis : Option J

/-- What the UI shows for one save or analyze action. -/
inductive UiDisplay where
  | analysisShown (response_json : J)
  | unexpectedFormat (errText : Option String)
  | savedOk
  | saveWarning
  | analyzeWarning

/-- Model of the Save Entry button (`GUI_streamlit.py` lines 182-192): a
non-empty-after-strip entry is appended with analysis None and a success
message; otherwise a warning is shown and nothing is appended. -/
def saveResult (hist : List JournalEntry) (ts user_input : String) :
    List JournalEntry × UiDisplay :=
  if (pyStrip user_input).isEmpty then (hist, .saveWarning)
  else (hist ++ [⟨ts, user_input, none⟩], .savedOk)

/-- Model of the analyze branch (`GUI_streamlit.py` lines 197-234): with a
whitespace-only entry only a warning is shown; otherwise the normalized
remote outcome is inspected with Python truthiness: a truthy decoded value
is displayed and appended with its analysis, anything else shows the
unexpected-response-format error together with the error text (the raw
reply on decode failure) and appends nothing. -/
def analyzeResult (hist : List JournalEntry) (ts user_input : String)
    (result : Except String String) : List JournalEntry × UiDisplay :=
  if (pyStrip user_input).isEmpty then (hist, .analyzeWarning)
  else
    let r := normalize_response result
    match r.1 with
    | some response_json =>
      if jsonTruthy response_json then
        (hist ++ [⟨ts, user_input, some response_json⟩], .analysisShown response_json)
      else (hist, .unexpectedFormat r.2)
    | none => (hist, .unexpectedFormat r.2)

/-- One user action on the UI session: save, analyze (with the remote
call outcome for that action), or the Clear History button. -/
inductive UiAction where
  | save (ts user_input : String)
  | analyze (ts user_input : String) (result : Except String String)
  | clearHistory

/-- Effect of one action on `st.session_state.journal_history`: save and
analyze go through their handlers, Clear History assigns the empty list
(`GUI_streamlit.py` lines 158-160). -/
def uiStep (hist : List JournalEntry) : UiAction → List JournalEntry
  | .save ts user_input => (saveResult hist ts user_input).1
  | .analyze ts user_input result => (analyzeResult hist ts user_input result).1
  | .clearHistory => []

/-- The history after a sequence of actions on a fresh session (the store
is initialized to the empty list, `GUI_streamlit.py` lines 55-56). -/
def uiRun (acts : List UiAction) : List JournalEntry := acts.foldl uiStep []

/-- The record an action appends, if any: this is the success
condition of the action. -/
def appendsEntry : UiAction → Option JournalEntry
  | .save ts user_input =>
    if (pyStrip user_input).isEmpty then none else some ⟨ts, user_input, none⟩
  | .analyze ts user_input result =>
    if (pyStrip user_input).isEmpty then none
    else
      match (normalize_response result).1 with
      | some response_json =>
        if jsonTruthy response_json then some ⟨ts, user_input, some response_json⟩ else none
      | none => none
  | .clearHistory => none

/-- Model of the history listing (`GUI_streamlit.py` lines 241-242):
enumerate the reversed history and label each expander with
"Entry {len-i} - {timestamp}". -/
def renderHistory (hist : List JournalEntry) : List (String × JournalEntry) :=
  hist.reverse.enum.map fun p =>
    ("📅 Entry " ++ toString (hist.length - p.1) ++ " - " ++ p.2.timestamp, p.2)

/-! Helper lemmas about Python strip and the fence scanner. -/

theorem mk_data (l : List Char) : (String.mk l).data = l := rfl

theorem dropWhile_head_false {p : Char → Bool} :
    ∀ (l : List Char) (c : Char) (t : List Char), l.dropWhile p = c :: t → p c = false := by
  intro l
  induction l with
  | nil => intro c t h; simp [List.dropWhile] at h
  | cons a as ih =>
    intro c t h
    by_cases ha : p a
    · rw [List.dropWhile_cons_of_pos ha] at h
      exact ih c t h
    · rw [List.dropWhile_cons_of_neg ha] at h
      cases h
      exact Bool.of_not_eq_true ha

theorem dropWhile_idem {p : Char → Bool} (l : List Char) :
    (l.dropWhile p).dropWhile p = l.dropWhile p := by
  cases h : l.dropWhile p with
  | nil => simp
  | cons c t =>
    have := dropWhile_head_false l c t h
    rw [List.dropWhile_cons_of_neg (by simp [this])]

theorem rstripL_decomp (l : List Char) :
    l = rstripL l ++ ((l.reverse.takeWhile isPyWs).reverse) := by
  unfold rstripL
  conv_lhs => rw [← l.reverse_reverse, ← List.takeWhile_append_dropWhile (p := isPyWs) (l := l.reverse)]
  rw [List.reverse_append]

theorem rstripL_idem (l : List Char) : rstripL (rstripL l) = rstripL l := by
  unfold rstripL
  rw [List.reverse_reverse, dropWhile_idem]

theorem rstripL_append_ws (l : List Char) (a : Char) (ha : isPyWs a = true) :
    rstripL (l ++ [a]) = rstripL l := by
  unfold rstripL
  rw [List.reverse_append]
  simp only [List.reverse_cons, List.reverse_nil, List.nil_append, List.singleton_append]
  rw [List.dropWhile_cons_of_pos (by simp [ha])]

theorem pyStripL_cons_ws (l : List Char) (a : Char) (ha : isPyWs a = true) :
    pyStripL (a :: l) = pyStripL l := by
  unfold pyStripL lstripL
  rw [List.dropWhile_cons_of_pos (by simp [ha])]

theorem pyStripL_append_ws (l : List Char) (a : Char) (ha : isPyWs a = true) :
    pyStripL (l ++ [a]) = pyStripL l := by
  unfold pyStripL lstripL
  rw [List.dropWhile_append]
  by_cases h : (l.dropWhile isPyWs).isEmpty
  · simp only [h, if_true]
    rw [List.dropWhile_cons_of_pos (by simp [ha]), List.dropWhile_nil]
    rw [List.isEmpty_iff] at h
    rw [h]
  · simp only [h, if_false]
    exact rstripL_append_ws _ a ha

theorem pyStripL_idem (l : List Char) : pyStripL (pyStripL l) = pyStripL l := by
  have step1 : lstripL (pyStripL l) = pyStripL l := by
    cases h : pyStripL l with
    | nil => simp [lstripL]
    | cons c t =>
      have hd : isPyWs c = false := by
        have hdecomp : lstripL l = (c :: t) ++ ((lstripL l).reverse.takeWhile isPyWs).reverse := by
          conv_lhs => rw [rstripL_decomp (lstripL l)]
          rw [show rstripL (lstripL l) = c :: t from h]
        exact dropWhile_head_false l c _ (by simpa using hdecomp)
      unfold lstripL
      rw [List.dropWhile_cons_of_neg (by simp [hd])]
  calc pyStripL (pyStripL l) = rstripL (pyStripL l) := by
        unfold pyStripL; rw [show lstripL (rstripL (lstripL l)) = rstripL (lstripL l) from step1]
    _ = pyStripL l := by unfold pyStripL; exact rstripL_idem _

/-! Fence-scanner lemmas. -/

theorem pat3_explicit : pat3 = ['\x60', '\x60', '\x60'] := rfl

theorem pat7_explicit : pat7 = ['\x60', '\x60', '\x60', 'j', 's', 'o', 'n'] := rfl

theorem removeFencesF_fuel : ∀ (f g : Nat) (l : List Char),
    l.length ≤ f → l.length ≤ g → removeFencesF f l = removeFencesF g l := by
  intro f
  induction f with
  | zero =>
    intro g l hf _
    have : l = [] := List.length_eq_zero.mp (Nat.le_zero.mp hf)
    subst this
    cases g <;> simp [removeFencesF]
  | succ f ih =>
    intro g l hf hg
    cases l with
    | nil => cases g <;> simp [removeFencesF]
    | cons c cs =>
      cases g with
      | zero => simp at hg
      | succ g =>
        simp only [List.length_cons, Nat.succ_le_succ_iff] at hf hg
        simp only [removeFencesF]
        by_cases h7 : pat7.isPrefixOf (c :: cs) = true
        · simp only [h7, if_true]
          exact ih _ _ (by simp; omega) (by simp; omega)
        · simp only [h7, if_false]
          by_cases h3 : pat3.isPrefixOf (c :: cs) = true
          · simp only [h3, if_true]
            exact ih _ _ (by simp; omega) (by simp; omega)
          · simp only [h3, if_false]
            exact congrArg (c :: ·) (ih _ _ hf hg)

theorem removeFences_eq7 (l : List Char) (h : pat7.isPrefixOf l = true) :
    removeFences l = removeFences (l.drop 7) := by
  cases l with
  | nil => exact absurd h (by decide)
  | cons c cs =>
    unfold removeFences
    simp only [List.length_cons, removeFencesF, h, if_true, List.drop_succ_cons]
    exact removeFencesF_fuel _ _ _ (by rw [List.length_drop]; exact Nat.sub_le _ _) le_rfl

theorem removeFences_eq3 (l : List Char) (h7 : pat7.isPrefixOf l = false)
    (h3 : pat3.isPrefixOf l = true) : removeFences l = removeFences (l.drop 3) := by
  cases l with
  | nil => exact absurd h3 (by decide)
  | cons c cs =>
    unfold removeFences
    simp only [List.length_cons, removeFencesF, h7, h3, if_true, if_false,
      Bool.false_eq_true, List.drop_succ_cons]
    exact removeFencesF_fuel _ _ _ (by rw [List.length_drop]; exact Nat.sub_le _ _) le_rfl

theorem removeFences_cons (c : Char) (cs : List Char)
    (h7 : pat7.isPrefixOf (c :: cs) = false) (h3 : pat3.isPrefixOf (c :: cs) = false) :
    removeFences (c :: cs) = c :: removeFences cs := by
  unfold removeFences
  simp only [List.length_cons, removeFencesF, h7, h3, Bool.false_eq_true, if_false]

theorem pat7_prefix_imp (l : List Char) (h : pat7.isPrefixOf l = true) :
    pat3.isPrefixOf l = true := by
  rw [List.isPrefixOf_iff_prefix] at h ⊢
  exact List.IsPrefix.trans (by rw [pat3_explicit, pat7_explicit]; decide) h

theorem isPrefixOf_nil_true (l : List Char) : List.isPrefixOf ([] : List Char) l = true := by
  cases l <;> rfl

theorem backtick3_prefix_cons (c : Char) (x : List Char) :
    pat3.isPrefixOf (c :: x) = ('\x60' == c && ['\x60', '\x60'].isPrefixOf x) := rfl

theorem backtick2_prefix_cons (c : Char) (x : List Char) :
    ['\x60', '\x60'].isPrefixOf (c :: x) = ('\x60' == c && ['\x60'].isPrefixOf x) := rfl

theorem backtick1_prefix_cons (c : Char) (x : List Char) :
    ['\x60'].isPrefixOf (c :: x) = ('\x60' == c) := by
  show ('\x60' == c && List.isPrefixOf [] x) = ('\x60' == c)
  rw [isPrefixOf_nil_true, Bool.and_true]

theorem pat7_prefix_cons (c : Char) (x : List Char) :
    pat7.isPrefixOf (c :: x) = ('\x60' == c && "``json".data.isPrefixOf x) := rfl

theorem tick1json_prefix_cons (c : Char) (x : List Char) :
    "``json".data.isPrefixOf (c :: x) = ('\x60' == c && "`json".data.isPrefixOf x) := rfl

theorem prefixOf_take (p : List Char) : ∀ (r : List Char) (n : Nat), p.length ≤ n →
    p.isPrefixOf (r.take n) = p.isPrefixOf r := by
  induction p with
  | nil => intro r n _; simp [List.isPrefixOf]
  | cons a as ih =>
    intro r n h
    cases r with
    | nil => simp
    | cons b bs =>
      cases n with
      | zero => simp at h
      | succ n =>
        simp only [List.length_cons, Nat.succ_le_succ_iff] at h
        simp only [List.take_succ_cons, List.isPrefixOf]
        rw [ih bs n h]

theorem prefixOf_append_take : ∀ (l p r : List Char) (n : Nat),
    p.length ≤ l.length + n → p.isPrefixOf (l ++ r.take n) = p.isPrefixOf (l ++ r) := by
  intro l
  induction l with
  | nil =>
    intro p r n h
    simpa using prefixOf_take p r n (by simpa using h)
  | cons b bs ih =>
    intro p r n h
    cases p with
    | nil => simp [List.isPrefixOf]
    | cons a as =>
      simp only [List.cons_append, List.isPrefixOf, List.append_eq]
      rw [ih as r n (by simp only [List.length_cons] at h ⊢; omega)]

theorem containsFence_cons (c : Char) (cs : List Char) :
    containsFence (c :: cs) = (pat3.isPrefixOf (c :: cs) || containsFence cs) := rfl

theorem not_pat7_of_not_pat3 (l : List Char) (h : pat3.isPrefixOf l = false) :
    pat7.isPrefixOf l = false := by
  by_cases hx : pat7.isPrefixOf l = true
  · rw [pat7_prefix_imp _ hx] at h; exact Bool.noConfusion h
  · exact Bool.of_not_eq_true hx

theorem removeFences_of_noFence : ∀ (l : List Char), containsFence l = false →
    removeFences l = l := by
  intro l
  induction l with
  | nil => intro _; rfl
  | cons c cs ih =>
    intro h
    rw [containsFence_cons, Bool.or_eq_false_iff] at h
    obtain ⟨h3, hcs⟩ := h
    rw [removeFences_cons c cs (not_pat7_of_not_pat3 _ h3) h3, ih hcs]

theorem removeFences_append : ∀ (l r : List Char),
    containsFence (l ++ r.take 2) = false → removeFences (l ++ r) = l ++ removeFences r := by
  intro l
  induction l with
  | nil => intro r _; simp
  | cons c cs ih =>
    intro r h
    rw [List.cons_append, containsFence_cons, Bool.or_eq_false_iff] at h
    obtain ⟨h3t, hcs⟩ := h
    have h3 : pat3.isPrefixOf ((c :: cs) ++ r) = false := by
      rw [← prefixOf_append_take (c :: cs) pat3 r 2
        (by simp only [pat3_explicit, List.length_cons, List.length_nil]; omega)]
      simpa using h3t
    simp only [List.cons_append] at h3
    have h7 : pat7.isPrefixOf (c :: (cs ++ r)) = false := not_pat7_of_not_pat3 _ h3
    rw [List.cons_append, removeFences_cons c (cs ++ r) h7 h3, ih r hcs, List.cons_append]

theorem containsFence_append_nl (l : List Char) (h : containsFence l = false) :
    containsFence (l ++ ['\n', '\x60']) = false := by
  induction l with
  | nil => decide
  | cons c cs ih =>
    rw [containsFence_cons, Bool.or_eq_false_iff] at h
    obtain ⟨h3, hcs⟩ := h
    rw [List.cons_append, containsFence_cons, Bool.or_eq_false_iff]
    refine ⟨?_, ih hcs⟩
    cases cs with
    | nil =>
      simp only [List.nil_append]
      rw [backtick3_prefix_cons,
        (by decide : (['\x60', '\x60'].isPrefixOf ['\n', '\x60']) = false), Bool.and_false]
    | cons d ds =>
      cases ds with
      | nil =>
        simp only [List.cons_append, List.nil_append]
        rw [backtick3_prefix_cons, backtick2_prefix_cons,
          (by decide : (['\x60'].isPrefixOf ['\n', '\x60']) = false), Bool.and_false,
          Bool.and_false]
      | cons e es =>
        simp only [List.cons_append] at h3 ⊢
        rw [backtick3_prefix_cons, backtick2_prefix_cons, backtick1_prefix_cons] at h3 ⊢
        exact h3

theorem backtick_head_of_removeFences (l : List Char)
    (h : ['\x60'].isPrefixOf (removeFences l) = true) : ['\x60'].isPrefixOf l = true := by
  cases l with
  | nil => exact absurd h (by decide)
  | cons c cs =>
    rw [backtick1_prefix_cons]
    by_cases h7 : pat7.isPrefixOf (c :: cs) = true
    · rw [pat7_prefix_cons, Bool.and_eq_true] at h7; exact h7.1
    · by_cases h3 : pat3.isPrefixOf (c :: cs) = true
      · rw [backtick3_prefix_cons, Bool.and_eq_true] at h3; exact h3.1
      · rw [removeFences_cons c cs (Bool.of_not_eq_true h7) (Bool.of_not_eq_true h3),
          backtick1_prefix_cons] at h
        exact h

theorem doubletick_of_removeFences (l : List Char)
    (h : ['\x60', '\x60'].isPrefixOf (removeFences l) = true) :
    ['\x60', '\x60'].isPrefixOf l = true := by
  cases l with
  | nil => exact absurd h (by decide)
  | cons c cs =>
    rw [backtick2_prefix_cons, Bool.and_eq_true]
    by_cases h7 : pat7.isPrefixOf (c :: cs) = true
    · rw [pat7_prefix_cons, Bool.and_eq_true] at h7
      refine ⟨h7.1, ?_⟩
      cases cs with
      | nil => exact absurd h7.2 (by decide)
      | cons d ds =>
        rw [backtick1_prefix_cons]
        have hd := h7.2
        rw [tick1json_prefix_cons, Bool.and_eq_true] at hd
        exact hd.1
    · by_cases h3 : pat3.isPrefixOf (c :: cs) = true
      · rw [backtick3_prefix_cons, Bool.and_eq_true] at h3
        refine ⟨h3.1, ?_⟩
        cases cs with
        | nil => exact absurd h3.2 (by decide)
        | cons d ds =>
          rw [backtick1_prefix_cons]
          have hd := h3.2
          rw [backtick2_prefix_cons, Bool.and_eq_true] at hd
          exact hd.1
      · rw [removeFences_cons c cs (Bool.of_not_eq_true h7) (Bool.of_not_eq_true h3),
          backtick2_prefix_cons, Bool.and_eq_true] at h
        exact ⟨h.1, backtick_head_of_removeFences cs h.2⟩

theorem noFence_removeFencesAux : ∀ (n : Nat) (l : List Char), l.length ≤ n →
    containsFence (removeFences l) = false := by
  intro n
  induction n with
  | zero =>
    intro l h
    have : l = [] := List.length_eq_zero.mp (Nat.le_zero.mp h)
    subst this
    decide
  | succ n ih =>
    intro l h
    cases l with
    | nil => decide
    | cons c cs =>
      simp only [List.length_cons, Nat.succ_le_succ_iff] at h
      by_cases h7 : pat7.isPrefixOf (c :: cs) = true
      · rw [removeFences_eq7 _ h7]
        exact ih _ (by simp only [List.length_drop, List.length_cons]; omega)
      · by_cases h3 : pat3.isPrefixOf (c :: cs) = true
        · rw [removeFences_eq3 _ (Bool.of_not_eq_true h7) h3]
          exact ih _ (by simp only [List.length_drop, List.length_cons]; omega)
        · rw [removeFences_cons c cs (Bool.of_not_eq_true h7) (Bool.of_not_eq_true h3)]
          rw [containsFence_cons, Bool.or_eq_false_iff]
          refine ⟨?_, ih cs h⟩
          by_cases hx : pat3.isPrefixOf (c :: removeFences cs) = true
          · rw [backtick3_prefix_cons, Bool.and_eq_true] at hx
            have h2 := doubletick_of_removeFences cs hx.2
            have hcontra : pat3.isPrefixOf (c :: cs) = true := by
              rw [backtick3_prefix_cons, Bool.and_eq_true]
              exact ⟨hx.1, h2⟩
            exact absurd hcontra h3
          · exact Bool.of_not_eq_true hx

theorem noFence_removeFences (l : List Char) : containsFence (removeFences l) = false :=
  noFence_removeFencesAux l.length l le_rfl

theorem containsFence_append_left (a m : List Char) (h : containsFence m = true) :
    containsFence (a ++ m) = true := by
  induction a with
  | nil => simpa
  | cons c cs ih => rw [List.cons_append, containsFence_cons, ih, Bool.or_true]

theorem isPrefixOf_append_right (p l b : List Char) (h : p.isPrefixOf l = true) :
    p.isPrefixOf (l ++ b) = true := by
  rw [List.isPrefixOf_iff_prefix] at h ⊢
  exact h.trans (l.prefix_append b)

theorem containsFence_append_right (m b : List Char) (h : containsFence m = true) :
    containsFence (m ++ b) = true := by
  induction m with
  | nil => exact Bool.noConfusion h
  | cons c cs ih =>
    rw [containsFence_cons, Bool.or_eq_true] at h
    rw [List.cons_append, containsFence_cons]
    cases h with
    | inl hp =>
      have hq := isPrefixOf_append_right pat3 (c :: cs) b hp
      simp only [List.cons_append] at hq
      rw [hq, Bool.true_or]
    | inr hcs => rw [ih hcs, Bool.or_true]

theorem noFence_pyStripL (l : List Char) (h : containsFence l = false) :
    containsFence (pyStripL l) = false := by
  by_cases hx : containsFence (pyStripL l) = true
  · have h1 : containsFence (lstripL l) = true := by
      have hd := rstripL_decomp (lstripL l)
      rw [show rstripL (lstripL l) = pyStripL l from rfl] at hd
      rw [hd]
      exact containsFence_append_right _ _ hx
    have h2 : containsFence l = true := by
      conv_lhs => rw [← List.takeWhile_append_dropWhile (p := isPyWs) (l := l)]
      exact containsFence_append_left _ _ h1
    rw [h2] at h
    exact Bool.noConfusion h
  · exact Bool.of_not_eq_true hx

theorem removeFences_wrap (dl : List Char) (h : containsFence dl = false) :
    removeFences (pat7 ++ '\n' :: (dl ++ '\n' :: pat3)) = '\n' :: (dl ++ ['\n']) := by
  rw [removeFences_eq7 _ (isPrefixOf_append_right pat7 pat7 _ (by decide))]
  rw [List.drop_left' (show pat7.length = 7 from rfl)]
  have hn3 : pat3.isPrefixOf ('\n' :: (dl ++ '\n' :: pat3)) = false := by
    rw [backtick3_prefix_cons, (by decide : ('\x60' == '\n') = false), Bool.false_and]
  rw [removeFences_cons '\n' _ (not_pat7_of_not_pat3 _ hn3) hn3]
  rw [removeFences_append dl ('\n' :: pat3)
    (by rw [show ('\n' :: pat3).take 2 = ['\n', '\x60'] from rfl]
        exact containsFence_append_nl dl h)]
  rw [show removeFences ('\n' :: pat3) = ['\n'] from rfl]

theorem pyStripL_wrap (dl : List Char) :
    pyStripL ('\n' :: (dl ++ ['\n'])) = pyStripL dl := by
  rw [pyStripL_cons_ws _ '\n' (by decide), pyStripL_append_ws _ '\n' (by decide)]

theorem wrap_data (doc : String) :
    ("```json\n" ++ doc ++ "\n```").data = pat7 ++ '\n' :: (doc.data ++ '\n' :: pat3) := by
  rw [String.data_append, String.data_append]
  rw [show ("```json\n".data : List Char) = pat7 ++ ['\n'] from rfl,
      show ("\n```".data : List Char) = '\n' :: pat3 from rfl]
  simp [List.append_assoc]

theorem clean_text_wrap (doc : String) (h : containsFence doc.data = false) :
    clean_text ("```json\n" ++ doc ++ "\n```") = pyStrip doc := by
  unfold clean_text pyStrip
  rw [wrap_data, removeFences_wrap doc.data h, mk_data, pyStripL_wrap]

/-! Decoder-machine lemmas: the error state absorbs, and feeding any Python
whitespace character either errors out or leaves the finalized result
unchanged.  These drive the proof that stripping surrounding whitespace
preserves decoding success. -/

theorem isPyWs_mem (c : Char) (h : isPyWs c = true) :
    c ∈ [' ', '\t', '\n', '\x0b', '\x0c', '\r', '\x1c', '\x1d', '\x1e', '\x1f', '\x85', '\xa0',
         '\u1680', '\u2000', '\u2001', '\u2002', '\u2003', '\u2004', '\u2005', '\u2006', '\u2007',
         '\u2008', '\u2009', '\u200a', '\u2028', '\u2029', '\u202f', '\u205f', '\u3000'] := by
  unfold isPyWs at h
  exact List.mem_of_elem_eq_true h

theorem pws_char_facts (c : Char) (h : isPyWs c = true) :
    c ≠ '"' ∧ c ≠ '\\' ∧ c ≠ '\x7b' ∧ c ≠ '\x7d' ∧ c ≠ '[' ∧ c ≠ ']' ∧ c ≠ ',' ∧ c ≠ ':' ∧
    c ≠ '-' ∧ c ≠ '+' ∧ c ≠ '.' ∧ c ≠ '/' ∧ c.isDigit = false ∧ isHexDig c = false ∧
    c ≠ 'b' ∧ c ≠ 'f' ∧ c ≠ 'n' ∧ c ≠ 'r' ∧ c ≠ 't' ∧ c ≠ 'u' ∧ c ≠ 'e' ∧ c ≠ 'E' ∧
    c ≠ 'l' ∧ c ≠ 'a' ∧ c ≠ 's' ∧ c ≠ 'N' ∧ c ≠ 'I' ∧ c ≠ 'i' ∧ c ≠ 'y' ∧ c ≠ '0' := by
  have hm := isPyWs_mem c h
  fin_cases hm <;> decide

theorem pws_not_lit_char (c : Char) (h : isPyWs c = true) :
    c ∉ ['n', 'u', 'l', 't', 'r', 'e', 'f', 'a', 's', 'N', 'I', 'i', 'y', '-'] := by
  have hm := isPyWs_mem c h
  fin_cases hm <;> decide

theorem pws_ne_lit (c : Char) (h : isPyWs c = true) (k : LitKind) (pos : Nat) (p : Char)
    (hp : (litTarget k).get? pos = some p) : ¬ (c = p) := by
  intro he
  subst he
  have hmem : c ∈ litTarget k := List.get?_mem hp
  have hbig : c ∈ ['n', 'u', 'l', 't', 'r', 'e', 'f', 'a', 's', 'N', 'I', 'i', 'y', '-'] := by
    cases k <;> (simp only [litTarget] at hmem; fin_cases hmem <;> decide)
  exact absurd hbig (pws_not_lit_char c h)

theorem step_pws (S : State) (c : Char) (h : isPyWs c = true) :
    step S c = State.error ∨ finalize (step S c) = finalize S := by
  obtain ⟨hq, hbs, hob, hcb, hosq, hcsq, hcm, hcol, hmin, hplus, hdot, hslash, hdig, hhex,
    hcb2, hcf, hcn, hcr, hct, hcu, hce, hcE, hcl, hca, hcs2, hcN, hcI, hci, hcy, hc0⟩ :=
    pws_char_facts c h
  cases S with
  | error => left; rfl
  | st stack mode =>
    cases mode with
    | start =>
      cases hjw : isJsonWs c with
      | true => right; simp [step, hjw]
      | false =>
        left
        simp [step, hjw, startValueChar, hq, hob, hosq, hcn, hct, hcf, hmin, hc0, hdig, hcN, hcI]
    | arrFirst =>
      cases hjw : isJsonWs c with
      | true => right; simp [step, hjw]
      | false =>
        left
        simp [step, hjw, hcsq, startValueChar, hq, hob, hosq, hcn, hct, hcf, hmin, hc0, hdig,
          hcN, hcI]
    | objFirst =>
      cases hjw : isJsonWs c with
      | true => right; simp [step, hjw]
      | false => left; simp [step, hjw, hcb, hq]
    | expectKey members =>
      cases hjw : isJsonWs c with
      | true => right; simp [step, hjw]
      | false => left; simp [step, hjw, hq]
    | afterKey members key =>
      cases hjw : isJsonWs c with
      | true => right; simp [step, hjw]
      | false => left; simp [step, hjw, hcol]
    | afterVal v =>
      cases hjw : isJsonWs c with
      | true => right; simp [step, stepAfterVal, hjw]
      | false =>
        left
        cases stack with
        | nil => simp [step, stepAfterVal, hjw]
        | cons fr rest => cases fr <;> simp [step, stepAfterVal, hjw, hcm, hcsq, hcb]
    | inStr ctx acc =>
      by_cases hlt : c.toNat < 32
      · left; simp [step, hq, hbs, hlt]
      · right; simp [step, hq, hbs, hlt, finalize]
    | strEsc ctx acc =>
      left; simp [step, hq, hbs, hslash, hcb2, hcf, hcn, hcr, hct, hcu]
    | strHex ctx acc hx =>
      left; simp [step, hhex]
    | lit k pos =>
      left
      simp only [step, stepLit]
      cases hcp : (litTarget k).get? pos with
      | none => rfl
      | some p => simp [pws_ne_lit c h k pos p hcp]
    | num lex ns =>
      cases ns with
      | sgn => left; simp [step, hc0, hdig, hcI]
      | z =>
        cases hjw : isJsonWs c with
        | true =>
          right
          cases stack with
          | nil => simp [step, stepAfterVal, hdot, hce, hcE, hjw, finalize, numComplete]
          | cons fr rest => simp [step, stepAfterVal, hdot, hce, hcE, hjw, finalize]
        | false =>
          left
          cases stack with
          | nil => simp [step, stepAfterVal, hdot, hce, hcE, hjw]
          | cons fr rest =>
            cases fr <;> simp [step, stepAfterVal, hdot, hce, hcE, hjw, hcm, hcsq, hcb]
      | ints =>
        cases hjw : isJsonWs c with
        | true =>
          right
          cases stack with
          | nil => simp [step, stepAfterVal, hdig, hdot, hce, hcE, hjw, finalize, numComplete]
          | cons fr rest => simp [step, stepAfterVal, hdig, hdot, hce, hcE, hjw, finalize]
        | false =>
          left
          cases stack with
          | nil => simp [step, stepAfterVal, hdig, hdot, hce, hcE, hjw]
          | cons fr rest =>
            cases fr <;> simp [step, stepAfterVal, hdig, hdot, hce, hcE, hjw, hcm, hcsq, hcb]
      | dot => left; simp [step, hdig]
      | frac =>
        cases hjw : isJsonWs c with
        | true =>
          right
          cases stack with
          | nil => simp [step, stepAfterVal, hdig, hce, hcE, hjw, finalize, numComplete]
          | cons fr rest => simp [step, stepAfterVal, hdig, hce, hcE, hjw, finalize]
        | false =>
          left
          cases stack with
          | nil => simp [step, stepAfterVal, hdig, hce, hcE, hjw]
          | cons fr rest =>
            cases fr <;> simp [step, stepAfterVal, hdig, hce, hcE, hjw, hcm, hcsq, hcb]
      | e => left; simp [step, hdig, hplus, hmin]
      | esgn => left; simp [step, hdig]
      | exp =>
        cases hjw : isJsonWs c with
        | true =>
          right
          cases stack with
          | nil => simp [step, stepAfterVal, hdig, hjw, finalize, numComplete]
          | cons fr rest => simp [step, stepAfterVal, hdig, hjw, finalize]
        | false =>
          left
          cases stack with
          | nil => simp [step, stepAfterVal, hdig, hjw]
          | cons fr rest => cases fr <;> simp [step, stepAfterVal, hdig, hjw, hcm, hcsq, hcb]

theorem foldl_step_error : ∀ (l : List Char), List.foldl step State.error l = State.error := by
  intro l
  induction l with
  | nil => rfl
  | cons c cs ih => rw [List.foldl_cons, show step State.error c = State.error from rfl, ih]

theorem init_step_pws (c : Char) (h : isPyWs c = true) :
    step initState c = initState ∨ step initState c = State.error := by
  have hm := isPyWs_mem c h
  fin_cases hm <;> first | (left; rfl) | (right; rfl)

theorem foldl_init_pws : ∀ (w : List Char), (∀ x ∈ w, isPyWs x = true) →
    List.foldl step initState w = initState ∨
    List.foldl step initState w = State.error := by
  intro w
  induction w with
  | nil => intro _; left; rfl
  | cons c cs ih =>
    intro hw
    rcases init_step_pws c (hw c (by simp)) with hcase | hcase
    · rw [List.foldl_cons, hcase]
      exact ih (fun x hx => hw x (by simp [hx]))
    · rw [List.foldl_cons, hcase, foldl_step_error]
      right
      rfl

theorem finalize_foldl_pws : ∀ (w : List Char) (S : State) (v : J),
    (∀ x ∈ w, isPyWs x = true) →
    finalize (List.foldl step S w) = some v → finalize S = some v := by
  intro w
  induction w with
  | nil => intro S v _ hf; exact hf
  | cons c cs ih =>
    intro S v hw hf
    rw [List.foldl_cons] at hf
    rcases step_pws S c (hw c (by simp)) with herr | heq
    · rw [herr, foldl_step_error] at hf
      exact Option.noConfusion hf
    · rw [← heq]
      exact ih (step S c) v (fun x hx => hw x (by simp [hx])) hf

theorem jsonLoads_data_pyStrip (l : List Char) (v : J)
    (h : finalize (List.foldl step initState l) = some v) :
    finalize (List.foldl step initState (pyStripL l)) = some v := by
  have hdec1 : l = l.takeWhile isPyWs ++ lstripL l :=
    (List.takeWhile_append_dropWhile (p := isPyWs) (l := l)).symm
  rw [hdec1, List.foldl_append] at h
  rcases foldl_init_pws (l.takeWhile isPyWs)
      (fun x hx => List.mem_takeWhile_imp hx) with hinit | herr
  · rw [hinit] at h
    have hdec2 := rstripL_decomp (lstripL l)
    rw [show rstripL (lstripL l) = pyStripL l from rfl] at hdec2
    rw [hdec2, List.foldl_append] at h
    exact finalize_foldl_pws _ _ v
      (fun x hx => List.mem_takeWhile_imp (List.mem_reverse.mp hx)) h
  · rw [herr, foldl_step_error] at h
    exact Option.noConfusion h

theorem jsonLoads_pyStrip (doc : String) (v : J) (h : jsonLoads doc = some v) :
    jsonLoads (pyStrip doc) = some v := by
  unfold jsonLoads at h ⊢
  rw [show (pyStrip doc).data = pyStripL doc.data from rfl]
  exact jsonLoads_data_pyStrip doc.data v h

/-! UI-action bookkeeping lemmas. -/

theorem uiStep_spec (hist : List JournalEntry) (a : UiAction) :
    uiStep hist a = hist ++ (appendsEntry a).toList ∨
    (a = .clearHistory ∧ uiStep hist a = []) := by
  cases a with
  | save ts ui =>
    left
    by_cases hemp : (pyStrip ui).isEmpty = true
    · simp [uiStep, saveResult, appendsEntry, hemp]
    · simp [uiStep, saveResult, appendsEntry, hemp]
  | analyze ts ui res =>
    left
    by_cases hemp : (pyStrip ui).isEmpty = true
    · simp [uiStep, analyzeResult, appendsEntry, hemp]
    · cases hnr : (normalize_response res).1 with
      | none => simp [uiStep, analyzeResult, appendsEntry, hemp, hnr]
      | some j =>
        by_cases htr : jsonTruthy j = true
        · simp [uiStep, analyzeResult, appendsEntry, hemp, hnr, htr]
        · simp [uiStep, analyzeResult, appendsEntry, hemp, hnr, htr]
  | clearHistory => right; exact ⟨rfl, rfl⟩

theorem uiRun_foldl_append : ∀ (acts : List UiAction) (hist : List JournalEntry),
    (∀ a ∈ acts, (appendsEntry a).isSome = true) →
    List.foldl uiStep hist acts = hist ++ acts.filterMap appendsEntry := by
  intro acts
  induction acts with
  | nil => intro hist _; simp
  | cons a as ih =>
    intro hist hs
    have ha : (appendsEntry a).isSome = true := hs a (by simp)
    rw [List.foldl_cons, List.filterMap_cons]
    rcases uiStep_spec hist a with hstep | ⟨hclear, _⟩
    · cases hae : appendsEntry a with
      | none => rw [hae] at ha; exact Bool.noConfusion ha
      | some e =>
        rw [hstep, hae]
        simp only [Option.toList_some]
        rw [ih (hist ++ [e]) (fun x hx => hs x (by simp [hx]))]
        simp [List.append_assoc]
    · subst hclear
      rw [show appendsEntry UiAction.clearHistory = none from rfl] at ha
      exact Bool.noConfusion ha

theorem length_filterMap_appends : ∀ (acts : List UiAction),
    (∀ a ∈ acts, (appendsEntry a).isSome = true) →
    (acts.filterMap appendsEntry).length = acts.length := by
  intro acts
  induction acts with
  | nil => intro _; rfl
  | cons a as ih =>
    intro hs
    rw [List.filterMap_cons]
    cases hae : appendsEntry a with
    | none =>
      have ha := hs a (by simp)
      rw [hae] at ha
      exact Bool.noConfusion ha
    | some e => simp [ih (fun x hx => hs x (by simp [hx]))]

theorem stripNonempty_exists (t : String) (h : (pyStrip t).isEmpty = false) :
    ∃ c ∈ t.data, isPyWs c = false := by
  by_contra hall
  push_neg at hall
  have hl : lstripL t.data = [] := by
    rw [lstripL, List.dropWhile_eq_nil_iff]
    intro x hx
    cases hb : isPyWs x with
    | false => exact absurd hb (hall x hx)
    | true => rfl
  have : (pyStrip t).isEmpty = true := by
    rw [show pyStrip t = String.mk (rstripL (lstripL t.data)) from rfl, hl]
    rfl
  rw [this] at h
  exact Bool.noConfusion h

theorem appendsEntry_nonempty (a : UiAction) (e : JournalEntry)
    (h : appendsEntry a = some e) : ∃ c ∈ e.entry.data, isPyWs c = false := by
  cases a with
  | save ts ui =>
    by_cases hemp : (pyStrip ui).isEmpty = true
    · simp [appendsEntry, hemp] at h
    · have hne : (pyStrip ui).isEmpty = false := Bool.of_not_eq_true hemp
      simp only [appendsEntry, hne, Bool.false_eq_true, if_false, Option.some.injEq] at h
      subst h
      exact stripNonempty_exists ui hne
  | analyze ts ui res =>
    by_cases hemp : (pyStrip ui).isEmpty = true
    · simp [appendsEntry, hemp] at h
    · have hne : (pyStrip ui).isEmpty = false := Bool.of_not_eq_true hemp
      cases hnr : (normalize_response res).1 with
      | none => simp [appendsEntry, hne, hnr] at h
      | some j =>
        by_cases htr : jsonTruthy j = true
        · simp only [appendsEntry, hne, Bool.false_eq_true, if_false, hnr, htr, if_true,
            Option.some.injEq] at h
          subst h
          exact stripNonempty_exists ui hne
        · simp [appendsEntry, hne, hnr, htr] at h
  | clearHistory => simp [appendsEntry] at h

theorem uiRun_entries_nonempty : ∀ (acts : List UiAction) (hist : List JournalEntry),
    (∀ e ∈ hist, ∃ c ∈ e.entry.data, isPyWs c = false) →
    ∀ e ∈ List.foldl uiStep hist acts, ∃ c ∈ e.entry.data, isPyWs c = false := by
  intro acts
  induction acts with
  | nil => intro hist hh e he; exact hh e he
  | cons a as ih =>
    intro hist hh e he
    rw [List.foldl_cons] at he
    refine ih (uiStep hist a) ?_ e he
    intro e2 he2
    rcases uiStep_spec hist a with hsp | ⟨_, hsp⟩
    · rw [hsp] at he2
      rcases List.mem_append.mp he2 with hin | hin
      · exact hh e2 hin
      · cases hae : appendsEntry a with
        | none => rw [hae] at hin; exact absurd hin (List.not_mem_nil e2)
        | some enew =>
          rw [hae] at hin
          simp only [Option.toList_some, List.mem_singleton] at hin
          subst hin
          exact appendsEntry_nonempty a e2 hae
    · rw [hsp] at he2
      exact absurd he2 (List.not_mem_nil e2)

/-! The ten claims. -/

/-- C1, counterexample to the claim as stated: the Markdown fence input
wrapping the valid JSON document with a "```" inside one of its strings is
cleaned to a string that decodes to a DIFFERENT record (the backticks are
also removed from inside the string), not to the decoded inner content. -/
theorem c1_counterexample :
    jsonLoads "\x7b\"k\": \"a```b\"\x7d" =
      some (J.obj [("k".data, J.str "a```b".data)]) ∧
    jsonLoads (clean_text ("```json\n" ++ "\x7b\"k\": \"a```b\"\x7d" ++ "\n```")) =
      some (J.obj [("k".data, J.str "ab".data)]) ∧
    J.obj [("k".data, J.str "ab".data)] ≠ J.obj [("k".data, J.str "a```b".data)] := by
  refine ⟨rfl, rfl, ?_⟩
  simp only [ne_eq, J.obj.injEq, List.cons.injEq, Prod.mk.injEq, J.str.injEq, and_true]
  decide

/-- C1 (amended): for every input text consisting of a Markdown JSON code
fence wrapping a valid JSON document whose text does not itself contain the
substring "```", the Response Normalizer yields a string on which strict
JSON decoding succeeds and returns the decoded record of the inner
content. -/
theorem c1_amended (doc : String) (v : J) (hv : jsonLoads doc = some v)
    (hnf : containsFence doc.data = false) :
    jsonLoads (clean_text ("```json\n" ++ doc ++ "\n```")) = some v := by
  rw [clean_text_wrap doc hnf]
  exact jsonLoads_pyStrip doc v hv

/-- Witness for C1 at the example document of the spec. -/
theorem c1_witness :
    jsonLoads "\x7b\"emotion_detected\": \"calm\"\x7d" =
      some (J.obj [("emotion_detected".data, J.str "calm".data)]) ∧
    containsFence ("\x7b\"emotion_detected\": \"calm\"\x7d" : String).data = false ∧
    jsonLoads (clean_text ("```json\n" ++ "\x7b\"emotion_detected\": \"calm\"\x7d" ++ "\n```")) =
      some (J.obj [("emotion_detected".data, J.str "calm".data)]) :=
  ⟨rfl, rfl, c1_amended "\x7b\"emotion_detected\": \"calm\"\x7d"
    (J.obj [("emotion_detected".data, J.str "calm".data)]) rfl rfl⟩

/-- C2: for every input text that is not valid JSON after fence stripping
and trimming, the normalizer returns a decode-failure signal (no decoded
value) together with the original raw text unmodified. -/
theorem c2_normalizer_failure (raw_text : String)
    (h : jsonLoads (clean_text raw_text) = none) :
    normalize_response (.ok raw_text) = (none, some raw_text) := by
  simp only [normalize_response, h]

/-- Witness for C2 at the example text of the spec. -/
theorem c2_witness :
    normalize_response (.ok "I think you feel okay.") =
      (none, some "I think you feel okay.") :=
  c2_normalizer_failure "I think you feel okay." rfl

/-- C3: starting from an empty History Store, N successful save-or-analyze
actions leave a store of length N holding the appended records in insertion
order; a clear action empties it; and every action either appends its
record (or nothing) at the end or clears the store - no other mutation. -/
theorem c3_history_store (acts : List UiAction)
    (hs : ∀ a ∈ acts, (appendsEntry a).isSome = true) :
    (uiRun acts).length = acts.length ∧
    uiRun acts = acts.filterMap appendsEntry ∧
    (∀ hist, uiStep hist .clearHistory = []) ∧
    (∀ hist a, uiStep hist a = hist ++ (appendsEntry a).toList ∨ uiStep hist a = []) := by
  have hrun : uiRun acts = acts.filterMap appendsEntry := by
    unfold uiRun
    rw [uiRun_foldl_append acts [] hs]
    simp
  refine ⟨?_, hrun, fun _ => rfl, fun hist a => ?_⟩
  · rw [hrun]
    exact length_filterMap_appends acts hs
  · rcases uiStep_spec hist a with h | ⟨_, h⟩
    · left; exact h
    · right; exact h

/-- Witness for C3: one successful save and one successful analyze from the
empty store. -/
theorem c3_witness :
    (uiRun [UiAction.save "2024-06-01 10:00:00" "hello",
            UiAction.analyze "2024-06-01 10:05:00" "rough day"
              (.ok "```json\n\x7b\"emotion_detected\": \"sadness\"\x7d\n```")]).length =
      [UiAction.save "2024-06-01 10:00:00" "hello",
       UiAction.analyze "2024-06-01 10:05:00" "rough day"
         (.ok "```json\n\x7b\"emotion_detected\": \"sadness\"\x7d\n```")].length ∧
    uiRun [UiAction.save "2024-06-01 10:00:00" "hello",
           UiAction.analyze "2024-06-01 10:05:00" "rough day"
             (.ok "```json\n\x7b\"emotion_detected\": \"sadness\"\x7d\n```")] =
      [UiAction.save "2024-06-01 10:00:00" "hello",
       UiAction.analyze "2024-06-01 10:05:00" "rough day"
         (.ok "```json\n\x7b\"emotion_detected\": \"sadness\"\x7d\n```")].filterMap
        appendsEntry ∧
    uiStep [JournalEntry.mk "2024-06-01 10:00:00" "hello" none] .clearHistory = [] ∧
    (uiStep [] (UiAction.save "2024-06-01 10:00:00" "hello") =
       [] ++ (appendsEntry (UiAction.save "2024-06-01 10:00:00" "hello")).toList ∨
     uiStep [] (UiAction.save "2024-06-01 10:00:00" "hello") = []) := by
  have h := c3_history_store
    [UiAction.save "2024-06-01 10:00:00" "hello",
     UiAction.analyze "2024-06-01 10:05:00" "rough day"
       (.ok "```json\n\x7b\"emotion_detected\": \"sadness\"\x7d\n```")]
    (by decide)
  exact ⟨h.1, h.2.1, h.2.2.1 _, h.2.2.2 [] _⟩

/-- C4, counterexample to the claim as stated: in the CLI front end the
remote-call error is NOT caught - the model of the `app.py` loop body
propagates it instead of returning a generic error string. -/
theorem c4_counterexample :
    cli_iteration "I feel tired" "prompt" (fun _ _ => .error "network down") =
      .error "network down" := rfl

/-- C4 (amended): errors raised by the remote generation call are caught and
surfaced as a generic "Error: ..." string only in the UI front end function
`get_ai_response`; the CLI front end does not catch them, so the error
propagates out of the loop iteration. -/
theorem c4_amended (e user_input system_prompt : String) :
    get_ai_response user_input system_prompt (fun _ _ => .error e) =
      (none, some ("Error: " ++ e)) ∧
    cli_iteration user_input system_prompt (fun _ _ => .error e) = .error e :=
  ⟨rfl, rfl⟩

/-- C5: when the configured prompt file is missing (or unreadable), each
front end prompt loader returns its built-in default instruction string
verbatim, and execution continues (the loaders are total). -/
theorem c5_prompt_loader :
    load_system_prompt .missing = guiDefaultPrompt ∧
    load_system_prompt .unreadable = guiDefaultPrompt ∧
    Sys_Prompt_of .missing = cliDefaultPrompt ∧
    Sys_Prompt_of .unreadable = cliDefaultPrompt :=
  ⟨rfl, rfl, rfl, rfl⟩

/-- C6: a remote reply that fails JSON decoding after normalization is shown
under the unexpected-format error indicator together with the raw text, and
the analyze action appends nothing to the History Store; the CLI likewise
shows the raw text under its warning. -/
theorem c6_decode_failure (hist : List JournalEntry)
    (ts user_input raw_text system_prompt : String)
    (hne : (pyStrip user_input).isEmpty = false)
    (hfail : jsonLoads (clean_text raw_text) = none) :
    analyzeResult hist ts user_input (.ok raw_text) =
      (hist, .unexpectedFormat (some raw_text)) ∧
    cli_iteration user_input system_prompt (fun _ _ => .ok raw_text) =
      .ok (.unexpectedRaw raw_text) := by
  constructor
  · simp [analyzeResult, normalize_response, hne, hfail]
  · simp [cli_iteration, hfail]

/-- Witness for C6: prose reply, non-empty journal text. -/
theorem c6_witness :
    analyzeResult [] "2024-06-01 10:00:00" "I feel anxious about tomorrow"
        (.ok "I think you feel okay.") =
      ([], .unexpectedFormat (some "I think you feel okay.")) ∧
    cli_iteration "I feel anxious about tomorrow" "prompt"
        (fun _ _ => .ok "I think you feel okay.") =
      .ok (.unexpectedRaw "I think you feel okay.") :=
  c6_decode_failure [] "2024-06-01 10:00:00" "I feel anxious about tomorrow"
    "I think you feel okay." "prompt" rfl rfl

set_option maxRecDepth 8192 in
/-- C7, counterexample to the claim as stated: for the same system prompt
and journal text, the two front ends build DIFFERENT combined prompt
strings. -/
theorem c7_counterexample :
    cli_combined_prompt "You are helpful." "I feel fine" ≠
      gui_combined_prompt "You are helpful." "I feel fine" := by decide

/-- C7 (amended): the UI combined prompt equals the CLI combined prompt
followed by one extra formatting-instruction line, and both front ends
invoke the model with the same temperature 0.9. -/
theorem c7_amended (system_prompt user_input : String) :
    gui_combined_prompt system_prompt user_input =
      cli_combined_prompt system_prompt user_input ++
        "\nFormat your response as valid JSON with keys: emotion_detected, summary, advice" ∧
    guiTemperature = cliTemperature ∧ guiTemperature = 9 / 10 := by
  refine ⟨?_, rfl, rfl⟩
  unfold gui_combined_prompt cli_combined_prompt
  conv_rhs => rw [String.append_assoc]
  congr 1

theorem renderHistory_length (hist : List JournalEntry) :
    (renderHistory hist).length = hist.length := by
  simp [renderHistory]

/-- C8: the UI lists history entries in reverse insertion order - the item
at display position i is the entry at position length-1-i - and labels each
with its stored timestamp in the expander title. -/
theorem c8_render_history (hist : List JournalEntry) (i : Nat) (h : i < hist.length) :
    (renderHistory hist).get ⟨i, by rw [renderHistory_length]; exact h⟩ =
      ("📅 Entry " ++ toString (hist.length - i) ++ " - " ++
        (hist.get ⟨hist.length - 1 - i, by omega⟩).timestamp,
       hist.get ⟨hist.length - 1 - i, by omega⟩) := by
  simp only [List.get_eq_getElem, renderHistory, List.getElem_map, List.getElem_enum,
    List.getElem_reverse]

/-- Witness for C8 on a two-entry history: display position 0 shows the
second (latest) entry with its timestamp. -/
theorem c8_witness :
    (renderHistory [JournalEntry.mk "2024-06-01 09:00:00" "first" none,
                    JournalEntry.mk "2024-06-01 10:00:00" "second" none]).get
        ⟨0, by rw [renderHistory_length]; decide⟩ =
      ("📅 Entry " ++
        toString ([JournalEntry.mk "2024-06-01 09:00:00" "first" none,
                   JournalEntry.mk "2024-06-01 10:00:00" "second" none].length - 0) ++ " - " ++
        ([JournalEntry.mk "2024-06-01 09:00:00" "first" none,
          JournalEntry.mk "2024-06-01 10:00:00" "second" none].get
            ⟨[JournalEntry.mk "2024-06-01 09:00:00" "first" none,
              JournalEntry.mk "2024-06-01 10:00:00" "second" none].length - 1 - 0,
             by decide⟩).timestamp,
       [JournalEntry.mk "2024-06-01 09:00:00" "first" none,
        JournalEntry.mk "2024-06-01 10:00:00" "second" none].get
          ⟨[JournalEntry.mk "2024-06-01 09:00:00" "first" none,
            JournalEntry.mk "2024-06-01 10:00:00" "second" none].length - 1 - 0,
           by decide⟩) :=
  c8_render_history
    [JournalEntry.mk "2024-06-01 09:00:00" "first" none,
     JournalEntry.mk "2024-06-01 10:00:00" "second" none] 0 (by decide)

/-- C9: the cleaning step of the normalizer (fence substitution followed by
whitespace trimming) is idempotent. -/
theorem c9_clean_text_idem (s : String) : clean_text (clean_text s) = clean_text s := by
  have hnf : containsFence ((clean_text s).data) = false := by
    rw [show (clean_text s).data = pyStripL (removeFences s.data) from rfl]
    exact noFence_pyStripL _ (noFence_removeFences s.data)
  show pyStrip (String.mk (removeFences (clean_text s).data)) = clean_text s
  rw [removeFences_of_noFence _ hnf]
  show String.mk (pyStripL (clean_text s).data) = clean_text s
  rw [show (clean_text s).data = pyStripL (removeFences s.data) from rfl, pyStripL_idem]
  rfl

/-- C10: every entry ever stored by a sequence of UI actions from the empty
store has a non-whitespace character in its text, and with whitespace-only
input both the save action and the analyze action leave the store unchanged
and show a warning. -/
theorem c10_nonempty_entries (acts : List UiAction) (e : JournalEntry)
    (he : e ∈ uiRun acts) :
    (∃ c ∈ e.entry.data, isPyWs c = false) ∧
    (∀ hist ts text result, (pyStrip text).isEmpty = true →
      saveResult hist ts text = (hist, .saveWarning) ∧
      analyzeResult hist ts text result = (hist, .analyzeWarning)) := by
  constructor
  · exact uiRun_entries_nonempty acts []
      (fun e2 he2 => absurd he2 (List.not_mem_nil e2)) e he
  · intro hist ts text result hemp
    exact ⟨by simp [saveResult, hemp], by simp [analyzeResult, hemp]⟩

/-- Witness for C10: a stored "hello" entry has a non-whitespace character,
and whitespace-only input triggers the warnings without appending. -/
theorem c10_witness :
    (∃ c ∈ (JournalEntry.mk "2024-06-01 10:00:00" "hello" none).entry.data,
      isPyWs c = false) ∧
    (saveResult [] "2024-06-01 11:00:00" "   " = ([], .saveWarning) ∧
     analyzeResult [] "2024-06-01 11:00:00" "   " (.ok "x") = ([], .analyzeWarning)) := by
  have h := c10_nonempty_entries [UiAction.save "2024-06-01 10:00:00" "hello"]
    (JournalEntry.mk "2024-06-01 10:00:00" "hello" none) (List.Mem.head _)
  exact ⟨h.1, h.2 [] "2024-06-01 11:00:00" "   " (.ok "x") rfl⟩
